import Mathlib

/-!
Shallow embedding of the crawl engine in `src/main/ScrapeRunner.js` (class
`ScrapeRunner`) and the tab / IPC bridge in the same repository (class `Tab`
and `PageTracker`).

Conventions of the embedding:
* JavaScript strings are Lean `String`s; `String.prototype.startsWith` is
  modelled by `jsStartsWith` on the underlying character lists.
* `Array.prototype.find` followed by a truthiness test (the pattern
  `const r = xs.find(p); if (!r) ...`) is modelled by `jsFindTruthy`:
  the result is truthy exactly when some element satisfies the predicate and
  the first such element is not the empty string (the empty string is the
  only falsy JavaScript string).
* The JavaScript `Set` `allKnownPages` is a `List String` with
  membership-guarded insertion (`List.insert`); the array `queue` is a
  `List String` with `push` = append at the tail and `shift` = take the head.
* Promise-chained control flow is modelled as a deterministic event-driven
  state machine: each suspension point of the runner (waiting for a page
  load, waiting for the rate-limit delay) is a `CyclePoint`, and external
  completions (load finished, timer fired, operator pressed stop) are
  `Ev`ents folded over the state.  Microtask continuations that are
  immediately runnable are executed inside the same step, matching the
  JavaScript guarantee that pending microtasks run before the next event.
* Ghost fields (`reports`, `navs`, `flagObserved`) record observable
  effects: status reports emitted, `loadURL` calls issued, and whether the
  advance-queue cycle has executed its top-of-cycle cancellation check with
  the `stopping` flag set.
-/

/-- JavaScript `s.startsWith(pre)`, on the character lists of the strings. -/
def jsStartsWith (s pre : String) : Bool :=
  pre.toList.isPrefixOf s.toList

/-- JavaScript `xs.find(p)` used as a boolean (`if (!r)` / `filter(link => r)`):
truthy iff a first element satisfying `p` exists and is not `""`. -/
def jsFindTruthy (xs : List String) (p : String → Bool) : Bool :=
  match xs.find? p with
  | some r => r != ""
  | none => false

/-- The page-side link-extraction script sets `url.hash = ""` on each URL
before returning it.  For an absolute URL string this drops the `#` and
everything after it. -/
def stripFragment (s : String) : String :=
  String.mk (s.toList.takeWhile (fun c => c != '#'))

/-- The result list of the `executeJavaScript` snippet in
`ScrapeRunner.examinePage`: each matched element's href, resolved against the
document base (hrefs are modelled as already absolute), with the fragment
cleared. -/
def extractLinks (hrefs : List String) : List String :=
  hrefs.map stripFragment

/-- `ScrapeStatus.state` values. -/
inductive ScrapeState
  | initialized
  | running
  | canceled
  | finished
deriving DecidableEq, Repr

/-- The suspension point the advance-queue cycle is currently at. -/
inductive CyclePoint
  /-- About to execute the top of `advanceQueue` (the cancellation check). -/
  | atCheck
  /-- Suspended in `waitForPage`, waiting for `did-stop-loading`. -/
  | awaitingLoad
  /-- Suspended in `rateLimit` before calling `tab.loadURL url`. -/
  | awaitingRate (url : String)
  /-- The cycle's promise chain has resolved (finished, or exited on stop). -/
  | done
deriving DecidableEq, Repr

/-- The fields of `ScrapeConfig` the crawl state machine reads.
(`linkXpath` only selects which hrefs the page script returns — those arrive
as event data here — and `ppmLimit`/`dryRun` only affect timing and the
recording-session calls, which no claim depends on.) -/
structure ScrapeConfig where
  firstPage : String
  rootUrls : List String
deriving Repr

/-- The mutable state of a `ScrapeRunner`, plus ghost observation fields. -/
structure RState where
  state : ScrapeState
  pagesVisited : Nat
  allKnownPages : List String
  queue : List String
  stopping : Bool
  /-- Ghost: number of `report()` calls made. -/
  reports : Nat
  /-- Ghost: the URLs passed to `tab.loadURL`, in order. -/
  navs : List String
  /-- Current control point of the advance-queue cycle. -/
  point : CyclePoint
  /-- Ghost: true once the top-of-cycle check in `advanceQueue` has run with
  `stopping = true` (the cycle has observed the cancellation flag). -/
  flagObserved : Bool
deriving DecidableEq, Repr

namespace ScrapeRunner

/-- The state built by the `ScrapeRunner` constructor. -/
def initRState : RState :=
  { state := .initialized
    pagesVisited := 0
    allKnownPages := []
    queue := []
    stopping := false
    reports := 0
    navs := []
    point := .atCheck
    flagObserved := false }

/-- The body of the `newLinks.forEach` loop in `examinePage` (named after the
Frontier operation it implements): if the link is unknown, add it to
`allKnownPages` and push it onto `queue`. -/
def offerIfNew (s : RState) (link : String) : RState :=
  if link ∈ s.allKnownPages then s
  else { s with allKnownPages := link :: s.allKnownPages,
                queue := s.queue ++ [link] }

/-- `ScrapeRunner.examinePage`, given the settled page's URL (`tab.getURL()`)
and the href attributes its link-extraction script finds.  Increments
`pagesVisited`, reports, and unless the page URL matches no root prefix,
records the page URL as known and offers every extracted link that matches a
root prefix. -/
def examinePage (cfg : ScrapeConfig) (s : RState) (url : String)
    (hrefs : List String) : RState :=
  if jsFindTruthy cfg.rootUrls (fun root => jsStartsWith url root) then
    ((extractLinks hrefs).filter
        (fun link => jsFindTruthy cfg.rootUrls (fun r => jsStartsWith link r))).foldl
      offerIfNew
      { s with pagesVisited := s.pagesVisited + 1, reports := s.reports + 1,
               allKnownPages := s.allKnownPages.insert url }
  else { s with pagesVisited := s.pagesVisited + 1, reports := s.reports + 1 }

/-- The final `.then` of `start()`: once the advance-queue cycle's promise
resolves, navigate to the all-pages overview unless stopping.  The overview
URL `contentUrl(allPagesUrl)` is modelled as a distinguished string. -/
def startEpilogue (s : RState) : RState :=
  if s.stopping then s
  else { s with navs := s.navs ++ ["chronicler://content/all-pages"] }

/-- `ScrapeRunner.loadNextPage`, up to its suspension: shift the queue; if
empty, set `finished`, report, and resolve the cycle (which lets `start()`
run its epilogue); otherwise suspend in `rateLimit` before loading the URL. -/
def loadNextPage (s : RState) : RState :=
  match s.queue with
  | [] => startEpilogue { s with state := .finished,
                                 reports := s.reports + 1,
                                 point := .done }
  | url :: rest => { s with queue := rest, point := .awaitingRate url }

/-- The top of `ScrapeRunner.advanceQueue`: if `stopping`, call
`notifyStopped` if set and resolve the cycle — but `stop()` as written never
assigns `notifyStopped` (see `stop`), so the call is a no-op and only the
ghost `flagObserved` records the observation; the cycle's promise resolving
lets `start()` run its epilogue.  Otherwise proceed into `waitForPage`. -/
def advanceQueue (s : RState) : RState :=
  if s.stopping then startEpilogue { s with flagObserved := true, point := .done }
  else { s with point := .awaitingLoad }

/-- `ScrapeRunner.stop()` as written: sets `stopping`, then builds
`Promise.resolve(resolve => { this.notifyStopped = resolve })`.
`Promise.resolve` treats the arrow function as a plain fulfillment value, so
the function is never invoked and `notifyStopped` is never assigned; the
chained `.then` (set state to `canceled`, report) runs on the next microtask
unconditionally, and the promise `stop()` returns resolves right after it. -/
def stop (s : RState) : RState :=
  { s with stopping := true, state := .canceled, reports := s.reports + 1 }

/-- `ScrapeRunner.start()` up to the first suspension: set `running`,
navigate to `firstPage` (the tab starts on a different URL), then enter the
advance-queue cycle, which immediately runs its top-of-cycle check. -/
def start (cfg : ScrapeConfig) : RState :=
  advanceQueue { initRState with state := .running,
                                 navs := [cfg.firstPage],
                                 point := .atCheck }

/-- External completions delivered to the runner. -/
inductive Ev
  /-- The operator calls `stop()`; its microtask continuation runs before the
  next external event. -/
  | stopCall
  /-- The awaited page load settles; `url` is what `tab.getURL()` then
  returns and `hrefs` what the link-extraction script returns. -/
  | loadDone (url : String) (hrefs : List String)
  /-- The rate-limit delay elapses (tokens available). -/
  | tick

/-- One external event: resume the suspended continuation it completes and
run the promise chain through to the next suspension point. -/
def step (cfg : ScrapeConfig) (s : RState) : Ev → RState
  | .stopCall => stop s
  | .loadDone url hrefs =>
    match s.point with
    | .awaitingLoad => loadNextPage (examinePage cfg s url hrefs)
    | _ => s
  | .tick =>
    match s.point with
    | .awaitingRate url =>
      advanceQueue { s with navs := s.navs ++ [url], point := .atCheck }
    | _ => s

/-- A whole run: `start()` followed by a sequence of external events. -/
def run (cfg : ScrapeConfig) (evs : List Ev) : RState :=
  evs.foldl (step cfg) (start cfg)

end ScrapeRunner

namespace Tab

/-- A response sent back through the channel: `{data}` on handler success,
`{error}` on rejection (payloads modelled as strings). -/
inductive IpcResp
  | data (d : String)
  | error (e : String)
deriving DecidableEq, Repr

/-- Observable actions of `Tab.installIpcServer`: one `executeJavaScript`
round trip of `advanceQueue(arg)` (carrying `none` for the initial `null`
argument or `some resp` for a response), or one dispatch of a request to the
registered `ipcHandler`. -/
inductive IpcEvent
  | eval (resp : Option IpcResp)
  | dispatch (req : String)
deriving DecidableEq, Repr

/-- The response produced for one request inside `handleIpcRequest`: if no
`ipcHandler` is registered the promise chain rejects with the string
`"no IPC handler"`, producing an `{error}` response; otherwise the handler's
success or failure payload is wrapped accordingly. -/
def respond (handler : Option (String → Except String String))
    (req : String) : IpcResp :=
  match handler with
  | none => .error "no IPC handler"
  | some h =>
    match h req with
    | .ok d => .data d
    | .error e => .error e

/-- `handleIpcRequest`, driven by a script of page-side answers: `cur` is the
value the previous `advanceQueue` evaluation returned, `script` the answers
the page will give to subsequent evaluations (an exhausted script answers
`null`, as the evaluated expression does when `window.ipcClient` is gone).
On `null`, shut down.  Otherwise dispatch the request, evaluate
`advanceQueue(response)`, and recurse on the value that evaluation returns. -/
def handleIpcRequest (handler : Option (String → Except String String)) :
    Option String → List (Option String) → List IpcEvent
  | none, _ => []
  | some req, [] => [.dispatch req, .eval (some (respond handler req))]
  | some req, a :: rest =>
    .dispatch req :: .eval (some (respond handler req)) ::
      handleIpcRequest handler a rest

/-- `Tab.installIpcServer`: evaluate `advanceQueue(null)` once, then run
`handleIpcRequest` on the value it returns. -/
def installIpcServer (handler : Option (String → Except String String))
    (script : List (Option String)) : List IpcEvent :=
  match script with
  | [] => [.eval none]
  | a :: rest => .eval none :: handleIpcRequest handler a rest

/-- The requests dispatched in a trace, in order. -/
def dispatches : List IpcEvent → List String
  | [] => []
  | .dispatch r :: t => r :: dispatches t
  | .eval _ :: t => dispatches t

/-- The answers a script delivers before its first `null`: the requests the
page side produces, in order. -/
def scriptRequests : List (Option String) → List String
  | [] => []
  | none :: _ => []
  | some r :: t => r :: scriptRequests t

/-- After the initial `advanceQueue(null)`, the trace is a sequence of
(dispatch, response-carrying evaluation) pairs: each new request is obtained
by the same evaluation round trip that delivers the previous response. -/
def alternates : List IpcEvent → Bool
  | [] => true
  | .dispatch _ :: .eval (some _) :: t => alternates t
  | _ => false

/-- The state recorded by a live `PageTracker` that this embedding needs:
the URL of the full-page navigation that created it. -/
structure PageTracker where
  rootUrl : String
deriving DecidableEq, Repr

/-- Archive writes issued by `PageTracker` (via `Archive.upsertPage` and
`Archive.setPageTitle`). -/
inductive ArchOp
  | upsertPage (url title : String) (originalUrl : Option String)
  | setPageTitle (title : String)
deriving DecidableEq, Repr

/-- The per-tab state the navigation handlers touch: the active page-record
binding and a ghost trace of archive writes. -/
structure TabState where
  activePage : Option PageTracker
  archOps : List ArchOp
deriving DecidableEq, Repr

/-- `Tab.handleNavigation`: on a full-document navigation, if recording is
active, the URL does not bypass the persister, and the status code is
positive, install a fresh `PageTracker` (whose constructor upserts the root
page with the current title); otherwise clear `activePage`. -/
def handleNavigation (recording : Bool) (bypass : String → Bool)
    (t : TabState) (url : String) (statusCode : Int) (title : String) :
    TabState :=
  if recording && !bypass url && decide (statusCode > 0) then
    { activePage := some { rootUrl := url },
      archOps := t.archOps ++ [.upsertPage url title none] }
  else { t with activePage := none }

/-- `Tab.handleTitleUpdated`: record the title change on the current page of
the active binding, when recording and a binding exists. -/
def handleTitleUpdated (recording : Bool) (t : TabState) (title : String) :
    TabState :=
  if recording && t.activePage.isSome then
    { t with archOps := t.archOps ++ [.setPageTitle title] }
  else t

/-- `Tab.handleInPageNavigation`: on a main-frame in-page navigation while
recording with an active binding, upsert a page for the new URL, with an
`originalUrl` back-reference to the binding's root URL when they differ. -/
def handleInPageNavigation (recording : Bool) (t : TabState) (url : String)
    (isMainFrame : Bool) (title : String) : TabState :=
  match t.activePage with
  | some p =>
    if recording && isMainFrame then
      { t with archOps := t.archOps ++
          [.upsertPage url title (if url = p.rootUrl then none else some p.rootUrl)] }
    else t
  | none => t

/-- A subsequent page event relevant to the active binding: a title change or
an in-page navigation (each carrying the recording flag at its own time). -/
inductive TabEv
  | titleUpdated (recording : Bool) (title : String)
  | inPageNav (recording : Bool) (url : String) (isMainFrame : Bool) (title : String)

/-- Apply one subsequent event through its handler. -/
def applyTabEv (t : TabState) : TabEv → TabState
  | .titleUpdated recording title => handleTitleUpdated recording t title
  | .inPageNav recording url mf title =>
    handleInPageNavigation recording t url mf title

end Tab

namespace ScrapeRunner

/-- The Frontier invariant: the pending queue has no duplicates and every
pending URL is already known. -/
def FrontierInv (s : RState) : Prop :=
  s.queue.Nodup ∧ ∀ x ∈ s.queue, x ∈ s.allKnownPages

/-- A frontier operation: link discovery on a settled page, or dequeueing
(the queue shift in `loadNextPage`). -/
inductive FOp
  | examine (url : String) (hrefs : List String)
  | takeNext

/-- Apply one frontier operation. -/
def applyFOp (cfg : ScrapeConfig) (s : RState) : FOp → RState
  | .examine url hrefs => examinePage cfg s url hrefs
  | .takeNext => loadNextPage s

/-- Run a sequence of frontier operations on a fresh runner. -/
def runFOps (cfg : ScrapeConfig) (ops : List FOp) : RState :=
  ops.foldl (applyFOp cfg) initRState

theorem offerIfNew_known_mono (s : RState) (l : String) :
    s.allKnownPages ⊆ (offerIfNew s l).allKnownPages := by
  unfold offerIfNew
  split
  · exact fun _ h => h
  · exact fun x h => List.mem_cons_of_mem _ h

theorem offerIfNew_mem_known (s : RState) (l x : String)
    (h : x ∈ (offerIfNew s l).allKnownPages) :
    x ∈ s.allKnownPages ∨ x = l := by
  unfold offerIfNew at h
  split at h
  · exact Or.inl h
  · simp only [List.mem_cons] at h
    tauto

theorem offerIfNew_mem_queue (s : RState) (l x : String)
    (h : x ∈ (offerIfNew s l).queue) : x ∈ s.queue ∨ x = l := by
  unfold offerIfNew at h
  split at h
  · exact Or.inl h
  · simp only [List.mem_append, List.mem_singleton] at h
    exact h

theorem offerIfNew_inv (s : RState) (l : String) (h : FrontierInv s) :
    FrontierInv (offerIfNew s l) := by
  obtain ⟨hnd, hsub⟩ := h
  unfold FrontierInv offerIfNew
  split
  · exact ⟨hnd, hsub⟩
  · rename_i hl
    constructor
    · rw [List.nodup_append]
      refine ⟨hnd, List.nodup_singleton l, ?_⟩
      intro x hx hx1
      rw [List.mem_singleton] at hx1
      exact hl (hx1 ▸ hsub x hx)
    · intro x hx
      simp only [List.mem_append, List.mem_singleton] at hx
      rcases hx with hx | rfl
      · exact List.mem_cons_of_mem _ (hsub x hx)
      · exact List.mem_cons_self _ _

theorem offerIfNew_seen (s : RState) (l x : String)
    (hk : x ∈ s.allKnownPages) (hq : x ∉ s.queue) :
    x ∈ (offerIfNew s l).allKnownPages ∧ x ∉ (offerIfNew s l).queue := by
  unfold offerIfNew
  split
  · exact ⟨hk, hq⟩
  · rename_i hl
    refine ⟨List.mem_cons_of_mem _ hk, ?_⟩
    simp only [List.mem_append, List.mem_singleton]
    rintro (h | rfl)
    · exact hq h
    · exact hl hk

theorem foldl_offerIfNew_known_mono (ls : List String) (s : RState) :
    s.allKnownPages ⊆ (ls.foldl offerIfNew s).allKnownPages := by
  induction ls generalizing s with
  | nil => exact fun _ h => h
  | cons l t ih =>
    exact fun x h => ih (offerIfNew s l) (offerIfNew_known_mono s l h)

theorem foldl_offerIfNew_mem_known (ls : List String) (s : RState) (x : String)
    (h : x ∈ (ls.foldl offerIfNew s).allKnownPages) :
    x ∈ s.allKnownPages ∨ x ∈ ls := by
  induction ls generalizing s with
  | nil => exact Or.inl h
  | cons l t ih =>
    rcases ih (offerIfNew s l) h with h1 | h1
    · rcases offerIfNew_mem_known s l x h1 with h2 | rfl
      · exact Or.inl h2
      · exact Or.inr (List.mem_cons_self _ _)
    · exact Or.inr (List.mem_cons_of_mem _ h1)

theorem foldl_offerIfNew_mem_queue (ls : List String) (s : RState) (x : String)
    (h : x ∈ (ls.foldl offerIfNew s).queue) : x ∈ s.queue ∨ x ∈ ls := by
  induction ls generalizing s with
  | nil => exact Or.inl h
  | cons l t ih =>
    rcases ih (offerIfNew s l) h with h1 | h1
    · rcases offerIfNew_mem_queue s l x h1 with h2 | rfl
      · exact Or.inl h2
      · exact Or.inr (List.mem_cons_self _ _)
    · exact Or.inr (List.mem_cons_of_mem _ h1)

theorem foldl_offerIfNew_inv (ls : List String) (s : RState)
    (h : FrontierInv s) : FrontierInv (ls.foldl offerIfNew s) := by
  induction ls generalizing s with
  | nil => exact h
  | cons l t ih => exact ih (offerIfNew s l) (offerIfNew_inv s l h)

theorem foldl_offerIfNew_seen (ls : List String) (s : RState) (x : String)
    (hk : x ∈ s.allKnownPages) (hq : x ∉ s.queue) :
    x ∈ (ls.foldl offerIfNew s).allKnownPages ∧
      x ∉ (ls.foldl offerIfNew s).queue := by
  induction ls generalizing s with
  | nil => exact ⟨hk, hq⟩
  | cons l t ih =>
    obtain ⟨hk1, hq1⟩ := offerIfNew_seen s l x hk hq
    exact ih (offerIfNew s l) hk1 hq1

theorem examinePage_known_mono (cfg : ScrapeConfig) (s : RState)
    (url : String) (hrefs : List String) :
    s.allKnownPages ⊆ (examinePage cfg s url hrefs).allKnownPages := by
  unfold examinePage
  split
  · intro x hx
    exact foldl_offerIfNew_known_mono _ _ (List.subset_insert _ _ hx)
  · exact fun _ h => h

theorem examinePage_mem_queue (cfg : ScrapeConfig) (s : RState)
    (url : String) (hrefs : List String) (x : String)
    (h : x ∈ (examinePage cfg s url hrefs).queue) :
    x ∈ s.queue ∨ x ∈ (extractLinks hrefs).filter
      (fun link => jsFindTruthy cfg.rootUrls (fun r => jsStartsWith link r)) := by
  unfold examinePage at h
  split at h
  · exact foldl_offerIfNew_mem_queue _
      { s with pagesVisited := s.pagesVisited + 1, reports := s.reports + 1,
               allKnownPages := s.allKnownPages.insert url } x h
  · exact Or.inl h

theorem examinePage_mem_known (cfg : ScrapeConfig) (s : RState)
    (url : String) (hrefs : List String) (x : String)
    (h : x ∈ (examinePage cfg s url hrefs).allKnownPages) :
    x ∈ s.allKnownPages ∨ x = url ∨ x ∈ extractLinks hrefs := by
  unfold examinePage at h
  split at h
  · rcases foldl_offerIfNew_mem_known _ _ _ h with h1 | h1
    · rcases List.mem_insert_iff.mp h1 with h2 | h2
      · exact Or.inr (Or.inl h2)
      · exact Or.inl h2
    · exact Or.inr (Or.inr (List.mem_of_mem_filter h1))
  · exact Or.inl h

theorem examinePage_inv (cfg : ScrapeConfig) (s : RState) (url : String)
    (hrefs : List String) (h : FrontierInv s) :
    FrontierInv (examinePage cfg s url hrefs) := by
  obtain ⟨hnd, hsub⟩ := h
  unfold examinePage
  split
  · refine foldl_offerIfNew_inv _ _ ⟨hnd, ?_⟩
    intro x hx
    exact List.subset_insert _ _ (hsub x hx)
  · exact ⟨hnd, hsub⟩

theorem examinePage_seen (cfg : ScrapeConfig) (s : RState) (url : String)
    (hrefs : List String) (x : String) (hk : x ∈ s.allKnownPages)
    (hq : x ∉ s.queue) :
    x ∈ (examinePage cfg s url hrefs).allKnownPages ∧
      x ∉ (examinePage cfg s url hrefs).queue := by
  unfold examinePage
  split
  · exact foldl_offerIfNew_seen _ _ _ (List.subset_insert _ _ hk) hq
  · exact ⟨hk, hq⟩

theorem loadNextPage_known (s : RState) :
    (loadNextPage s).allKnownPages = s.allKnownPages := by
  unfold loadNextPage startEpilogue
  split
  · split <;> rfl
  · rfl

theorem loadNextPage_mem_queue (s : RState) (x : String)
    (h : x ∈ (loadNextPage s).queue) : x ∈ s.queue := by
  unfold loadNextPage startEpilogue at h
  split at h
  · split at h <;> simp_all
  · rename_i url rest heq
    rw [heq]
    exact List.mem_cons_of_mem _ h

theorem loadNextPage_inv (s : RState) (h : FrontierInv s) :
    FrontierInv (loadNextPage s) := by
  obtain ⟨hnd, hsub⟩ := h
  constructor
  · unfold loadNextPage startEpilogue
    split
    · split <;> exact hnd
    · rename_i url rest heq
      exact (List.nodup_cons.mp (heq ▸ hnd)).2
  · intro x hx
    rw [loadNextPage_known]
    exact hsub x (loadNextPage_mem_queue s x hx)

theorem applyFOp_known_mono (cfg : ScrapeConfig) (s : RState) (op : FOp) :
    s.allKnownPages ⊆ (applyFOp cfg s op).allKnownPages := by
  cases op with
  | examine url hrefs => exact examinePage_known_mono cfg s url hrefs
  | takeNext =>
    simp only [applyFOp, loadNextPage_known]
    exact fun _ h => h

theorem applyFOp_inv (cfg : ScrapeConfig) (s : RState) (op : FOp)
    (h : FrontierInv s) : FrontierInv (applyFOp cfg s op) := by
  cases op with
  | examine url hrefs => exact examinePage_inv cfg s url hrefs h
  | takeNext => exact loadNextPage_inv s h

theorem applyFOp_seen (cfg : ScrapeConfig) (s : RState) (op : FOp) (x : String)
    (hk : x ∈ s.allKnownPages) (hq : x ∉ s.queue) :
    x ∈ (applyFOp cfg s op).allKnownPages ∧ x ∉ (applyFOp cfg s op).queue := by
  cases op with
  | examine url hrefs => exact examinePage_seen cfg s url hrefs x hk hq
  | takeNext =>
    simp only [applyFOp, loadNextPage_known]
    exact ⟨hk, fun hc => hq (loadNextPage_mem_queue s x hc)⟩

theorem foldl_applyFOp_known_mono (cfg : ScrapeConfig) (ops : List FOp)
    (s : RState) : s.allKnownPages ⊆ (ops.foldl (applyFOp cfg) s).allKnownPages := by
  induction ops generalizing s with
  | nil => exact fun _ h => h
  | cons op t ih =>
    exact fun x h => ih (applyFOp cfg s op) (applyFOp_known_mono cfg s op h)

theorem foldl_applyFOp_inv (cfg : ScrapeConfig) (ops : List FOp) (s : RState)
    (h : FrontierInv s) : FrontierInv (ops.foldl (applyFOp cfg) s) := by
  induction ops generalizing s with
  | nil => exact h
  | cons op t ih => exact ih (applyFOp cfg s op) (applyFOp_inv cfg s op h)

theorem foldl_applyFOp_seen (cfg : ScrapeConfig) (ops : List FOp) (s : RState)
    (x : String) (hk : x ∈ s.allKnownPages) (hq : x ∉ s.queue) :
    x ∈ (ops.foldl (applyFOp cfg) s).allKnownPages ∧
      x ∉ (ops.foldl (applyFOp cfg) s).queue := by
  induction ops generalizing s with
  | nil => exact ⟨hk, hq⟩
  | cons op t ih =>
    obtain ⟨hk1, hq1⟩ := applyFOp_seen cfg s op x hk hq
    exact ih (applyFOp cfg s op) hk1 hq1

end ScrapeRunner

theorem stripFragment_no_hash (s : String) :
    '#' ∉ (stripFragment s).toList := by
  intro h
  have := List.mem_takeWhile_imp h
  simp at this

theorem extractLinks_no_hash (hrefs : List String) (x : String)
    (h : x ∈ extractLinks hrefs) : '#' ∉ x.toList := by
  unfold extractLinks at h
  obtain ⟨a, _, rfl⟩ := List.mem_map.mp h
  exact stripFragment_no_hash a

theorem jsFindTruthy_exists (xs : List String) (p : String → Bool)
    (h : jsFindTruthy xs p = true) : ∃ r ∈ xs, p r = true := by
  unfold jsFindTruthy at h
  split at h
  · rename_i r heq
    exact ⟨r, List.mem_of_find?_eq_some heq, List.find?_some heq⟩
  · exact absurd h (by simp)

namespace Tab

theorem handleIpcRequest_dispatches
    (handler : Option (String → Except String String))
    (script : List (Option String)) (cur : Option String) :
    dispatches (handleIpcRequest handler cur script) =
      scriptRequests (cur :: script) := by
  induction script generalizing cur with
  | nil => cases cur <;> rfl
  | cons a rest ih =>
    cases cur with
    | none => rfl
    | some req =>
      simp only [handleIpcRequest, dispatches, scriptRequests]
      rw [ih a]

theorem handleIpcRequest_alternates
    (handler : Option (String → Except String String))
    (script : List (Option String)) (cur : Option String) :
    alternates (handleIpcRequest handler cur script) = true := by
  induction script generalizing cur with
  | nil => cases cur <;> rfl
  | cons a rest ih =>
    cases cur with
    | none => rfl
    | some req =>
      simp only [handleIpcRequest, alternates]
      exact ih a

end Tab

/-- The configuration of the end-to-end scenarios: one root prefix
`https://example.com/` and a first page inside it. -/
def exampleCfg : ScrapeConfig :=
  { firstPage := "https://example.com/a"
    rootUrls := ["https://example.com/"] }

open ScrapeRunner Tab

/-- C1: the claim fails on the code.  `stop()` builds
`Promise.resolve(resolve => { this.notifyStopped = resolve })`, which treats
the executor function as a plain fulfillment value, so `notifyStopped` is
never assigned and the `.then` continuation runs unconditionally on the next
microtask: when `stop()` is called while the runner is suspended waiting for
the second page's load, the state is already `canceled` (and the promise
`stop()` returned has resolved) while the advance-queue cycle is still
suspended in `waitForPage` and has not observed the cancellation flag. -/
theorem ScrapeRunner.stop_canceled_before_cycle_observes :
    (run exampleCfg [.loadDone "https://example.com/a"
        ["https://example.com/b", "https://example.com/c"], .tick,
      .stopCall]).state = ScrapeState.canceled
    ∧ (run exampleCfg [.loadDone "https://example.com/a"
        ["https://example.com/b", "https://example.com/c"], .tick,
      .stopCall]).flagObserved = false
    ∧ (run exampleCfg [.loadDone "https://example.com/a"
        ["https://example.com/b", "https://example.com/c"], .tick,
      .stopCall]).point = CyclePoint.awaitingLoad := by
  decide

/-- C2: the claim fails on the code.  After `stop()` is invoked while the
runner waits for the second page's load (the runner is at `awaitingLoad` with
`stopping = true`), the in-flight cycle still runs `examinePage` and
`loadNextPage`, and `loadNextPage` issues `tab.loadURL` for a third frontier
URL before `advanceQueue` checks the flag: the navigation trace contains
three frontier URLs.  (The final state is `canceled` — but only because the
buggy `stop()` already set it.) -/
theorem ScrapeRunner.third_navigation_issued_after_stop :
    (run exampleCfg [.loadDone "https://example.com/a"
        ["https://example.com/b", "https://example.com/c"], .tick]).point
      = CyclePoint.awaitingLoad
    ∧ (run exampleCfg [.loadDone "https://example.com/a"
        ["https://example.com/b", "https://example.com/c"], .tick,
      .stopCall]).stopping = true
    ∧ (run exampleCfg [.loadDone "https://example.com/a"
        ["https://example.com/b", "https://example.com/c"], .tick,
      .stopCall, .loadDone "https://example.com/b" [], .tick]).navs
      = ["https://example.com/a", "https://example.com/b",
         "https://example.com/c"]
    ∧ (run exampleCfg [.loadDone "https://example.com/a"
        ["https://example.com/b", "https://example.com/c"], .tick,
      .stopCall, .loadDone "https://example.com/b" [], .tick]).state
      = ScrapeState.canceled := by
  decide

/-- C3: the claim fails on the code.  Because the buggy `stop()` sets
`canceled` unconditionally and `loadNextPage` sets `finished` without
checking `stopping`, both terminal states can be left again: a runner that
finished the crawl moves to `canceled` when `stop()` is then called, and a
runner canceled mid-wait moves to `finished` when the queue drains. -/
theorem ScrapeRunner.terminal_state_left_again :
    (run exampleCfg [.loadDone "https://example.com/a" []]).state
      = ScrapeState.finished
    ∧ (run exampleCfg [.loadDone "https://example.com/a" [],
        .stopCall]).state = ScrapeState.canceled
    ∧ (run exampleCfg [.stopCall]).state = ScrapeState.canceled
    ∧ (run exampleCfg [.stopCall,
        .loadDone "https://example.com/a" []]).state
      = ScrapeState.finished := by
  decide

/-- C4: for every sequence of link-discovery (`examinePage`) and dequeue
(`loadNextPage`) operations on a fresh runner, the visited set
`allKnownPages` only grows, the pending queue never contains a URL twice,
every pending URL is known, and a URL that has been seen and is not pending
never enters the queue again. -/
theorem ScrapeRunner.frontier_invariants (cfg : ScrapeConfig)
    (ops extra : List FOp) :
    (runFOps cfg ops).allKnownPages ⊆
      (runFOps cfg (ops ++ extra)).allKnownPages
    ∧ (runFOps cfg ops).queue.Nodup
    ∧ (∀ x ∈ (runFOps cfg ops).queue, x ∈ (runFOps cfg ops).allKnownPages)
    ∧ (∀ x ∈ (runFOps cfg ops).allKnownPages,
        x ∉ (runFOps cfg ops).queue →
          x ∉ (runFOps cfg (ops ++ extra)).queue) := by
  have hinit : FrontierInv initRState := by
    constructor
    · exact List.nodup_nil
    · intro x hx
      exact absurd hx (List.not_mem_nil x)
  have hinv : FrontierInv (runFOps cfg ops) :=
    foldl_applyFOp_inv cfg ops initRState hinit
  refine ⟨?_, hinv.1, hinv.2, ?_⟩
  · unfold runFOps
    rw [List.foldl_append]
    exact foldl_applyFOp_known_mono cfg extra _
  · intro x hk hq
    unfold runFOps
    rw [List.foldl_append]
    exact (foldl_applyFOp_seen cfg extra _ x hk hq).2

/-- Witness for C4 at a concrete operation sequence: the URL `/b` was seen
and dequeued, and offering it again on a later page does not re-enqueue it. -/
theorem ScrapeRunner.frontier_invariants_witness :
    "https://example.com/b" ∉
      (runFOps exampleCfg ([.examine "https://example.com/a"
        ["https://example.com/b"], .takeNext] ++
          [.examine "https://example.com/b" ["https://example.com/b"]])).queue :=
  (frontier_invariants exampleCfg
    [.examine "https://example.com/a" ["https://example.com/b"], .takeNext]
    [.examine "https://example.com/b" ["https://example.com/b"]]).2.2.2
    "https://example.com/b" (by decide) (by decide)

/-- C5: for every handler and scripted sequence of page-side answers, the
channel dispatches exactly the requests the page produced before its first
`null`, in order; after the initial `advanceQueue(null)` evaluation the
trace strictly alternates dispatch / response-carrying evaluation, so a new
request is only obtained by the evaluation that delivers the previous
response.  For the script `[null]` the loop performs one evaluation and no
dispatch; for `[reqA, null]` it dispatches `reqA`, issues one
response-carrying evaluation, and terminates on receiving `null`. -/
theorem Tab.ipc_requests_ordered
    (handler : Option (String → Except String String))
    (script : List (Option String)) :
    dispatches (installIpcServer handler script) = scriptRequests script
    ∧ (∃ rest, installIpcServer handler script = .eval none :: rest
        ∧ alternates rest = true)
    ∧ installIpcServer handler [none] = [.eval none]
    ∧ (∀ reqA, installIpcServer handler [some reqA, none] =
        [.eval none, .dispatch reqA,
         .eval (some (respond handler reqA))]) := by
  refine ⟨?_, ?_, rfl, fun reqA => rfl⟩
  · cases script with
    | nil => rfl
    | cons a rest =>
      simp only [installIpcServer, dispatches]
      exact handleIpcRequest_dispatches handler rest a
  · cases script with
    | nil => exact ⟨[], rfl, rfl⟩
    | cons a rest =>
      exact ⟨_, rfl, handleIpcRequest_alternates handler rest a⟩

/-- C6: when no handler is registered, a non-null request is answered with
the deterministic failure payload `error "no IPC handler"` delivered by the
next `advanceQueue` evaluation, and the loop continues with the answer that
evaluation returns (the concrete trace shows a second request still being
dispatched and answered). -/
theorem Tab.ipc_missing_handler_rejects (req : String) (a : Option String)
    (rest : List (Option String)) :
    respond none req = IpcResp.error "no IPC handler"
    ∧ installIpcServer none (some req :: a :: rest) =
        .eval none :: .dispatch req ::
          .eval (some (IpcResp.error "no IPC handler")) ::
            handleIpcRequest none a rest
    ∧ installIpcServer none [some "r1", some "r2", none] =
        [.eval none, .dispatch "r1",
         .eval (some (IpcResp.error "no IPC handler")),
         .dispatch "r2",
         .eval (some (IpcResp.error "no IPC handler"))] :=
  ⟨rfl, rfl, rfl⟩

/-- C7: the claim fails on the code.  Discovered links are fragment-stripped
by the page-side script, but `examinePage` records the current page's URL
exactly as `tab.getURL()` reports it: a page settled at a URL carrying a
fragment is stored in `allKnownPages` with its fragment intact. -/
theorem ScrapeRunner.visited_url_keeps_fragment :
    "https://example.com/a#frag" ∈
      (examinePage exampleCfg initRState
        "https://example.com/a#frag" []).allKnownPages
    ∧ '#' ∈ "https://example.com/a#frag".toList := by
  decide

/-- C7 (amended): every URL in the visited set after `examinePage` was
already there, or is the current page's URL recorded verbatim, or is a
discovered link, which the page-side extraction script returns with its
fragment stripped (it contains no `#`). -/
theorem ScrapeRunner.visited_urls_fragment_stripped (cfg : ScrapeConfig)
    (s : RState) (url : String) (hrefs : List String) (x : String)
    (h : x ∈ (examinePage cfg s url hrefs).allKnownPages) :
    x ∈ s.allKnownPages ∨ x = url ∨ '#' ∉ x.toList := by
  rcases examinePage_mem_known cfg s url hrefs x h with h1 | h1 | h1
  · exact Or.inl h1
  · exact Or.inr (Or.inl h1)
  · exact Or.inr (Or.inr (extractLinks_no_hash hrefs x h1))

/-- Witness for the amended C7: the link extracted from `/b#frag` is stored
as `/b`, fragment-free. -/
theorem ScrapeRunner.visited_urls_fragment_stripped_witness :
    "https://example.com/b" ∈
      (examinePage exampleCfg initRState "https://example.com/a"
        ["https://example.com/b#frag"]).allKnownPages
    ∧ ("https://example.com/b" ∈ initRState.allKnownPages
        ∨ "https://example.com/b" = "https://example.com/a"
        ∨ '#' ∉ "https://example.com/b".toList) :=
  ⟨by decide,
   visited_urls_fragment_stripped exampleCfg initRState
     "https://example.com/a" ["https://example.com/b#frag"]
     "https://example.com/b" (by decide)⟩

/-- C8: every URL that `examinePage` enqueues matches a configured root URL
prefix, so an external link never enters the queue; in the scenario with
root `https://example.com/` and a page at `/a` linking to `/b` and an
external site, `/b` is enqueued and marked visited while the external link
enters neither the queue nor the visited set. -/
theorem ScrapeRunner.queue_urls_in_scope :
    (∀ (cfg : ScrapeConfig) (s : RState) (url : String)
        (hrefs : List String) (x : String),
      x ∈ (examinePage cfg s url hrefs).queue →
        x ∈ s.queue ∨ ∃ r ∈ cfg.rootUrls, jsStartsWith x r = true)
    ∧ (examinePage exampleCfg initRState "https://example.com/a"
        ["https://example.com/b", "https://other.site/x"]).queue
      = ["https://example.com/b"]
    ∧ "https://example.com/b" ∈
        (examinePage exampleCfg initRState "https://example.com/a"
          ["https://example.com/b", "https://other.site/x"]).allKnownPages
    ∧ "https://other.site/x" ∉
        (examinePage exampleCfg initRState "https://example.com/a"
          ["https://example.com/b", "https://other.site/x"]).queue
    ∧ "https://other.site/x" ∉
        (examinePage exampleCfg initRState "https://example.com/a"
          ["https://example.com/b", "https://other.site/x"]).allKnownPages := by
  refine ⟨?_, by decide, by decide, by decide, by decide⟩
  intro cfg s url hrefs x hx
  rcases examinePage_mem_queue cfg s url hrefs x hx with h1 | h1
  · exact Or.inl h1
  · exact Or.inr (jsFindTruthy_exists _ _ (List.mem_filter.mp h1).2)

/-- Witness for C8: the enqueued `/b` matches a root prefix. -/
theorem ScrapeRunner.queue_urls_in_scope_witness :
    "https://example.com/b" ∈ initRState.queue
    ∨ ∃ r ∈ exampleCfg.rootUrls,
        jsStartsWith "https://example.com/b" r = true :=
  queue_urls_in_scope.1 exampleCfg initRState "https://example.com/a"
    ["https://example.com/b", "https://other.site/x"]
    "https://example.com/b" (by decide)

/-- C9: when the settled page's URL matches no configured root prefix,
`examinePage` increments `pagesVisited` by exactly one and emits exactly one
status report, and changes nothing else: no link extraction, no change to
the visited set or the pending queue. -/
theorem ScrapeRunner.out_of_scope_page_counted (cfg : ScrapeConfig)
    (s : RState) (url : String) (hrefs : List String)
    (h : ∀ r ∈ cfg.rootUrls, jsStartsWith url r = false) :
    examinePage cfg s url hrefs =
      { s with pagesVisited := s.pagesVisited + 1,
               reports := s.reports + 1 } := by
  have hf : cfg.rootUrls.find? (fun root => jsStartsWith url root) = none :=
    List.find?_eq_none.mpr (fun r hr => by simp [h r hr])
  have ht : jsFindTruthy cfg.rootUrls (fun root => jsStartsWith url root)
      = false := by
    unfold jsFindTruthy
    rw [hf]
  unfold examinePage
  rw [ht]
  simp

/-- Witness for C9 at a page reached outside scope. -/
theorem ScrapeRunner.out_of_scope_page_counted_witness :
    examinePage exampleCfg initRState "https://other.site/x"
        ["https://example.com/b"] =
      { initRState with pagesVisited := 1, reports := 1 } :=
  out_of_scope_page_counted exampleCfg initRState "https://other.site/x"
    ["https://example.com/b"] (by decide)

/-- With no active page-record binding, title-change and in-page-navigation
events write nothing to the archive and leave the binding absent. -/
theorem Tab.foldl_applyTabEv_inactive (evs : List TabEv) (t : TabState)
    (h : t.activePage = none) :
    (evs.foldl applyTabEv t).archOps = t.archOps
    ∧ (evs.foldl applyTabEv t).activePage = none := by
  induction evs generalizing t with
  | nil => exact ⟨rfl, h⟩
  | cons e rest ih =>
    have hstep : applyTabEv t e = t := by
      cases e with
      | titleUpdated recording title =>
        simp [applyTabEv, handleTitleUpdated, h]
      | inPageNav recording url mf title =>
        simp [applyTabEv, handleInPageNavigation, h]
    rw [List.foldl_cons, hstep]
    exact ih t h

/-- C10: after a full-document navigation, an active page-record binding
exists iff recording is active, the navigated URL does not bypass the
persister, and the status code is strictly positive; in every other case the
handler clears the binding, and then any sequence of title-change and
in-page-navigation events persists nothing to the archive and leaves the
binding absent until the next qualifying full navigation. -/
theorem Tab.active_binding_iff (recording : Bool) (bypass : String → Bool)
    (t : TabState) (url : String) (statusCode : Int) (title : String) :
    ((handleNavigation recording bypass t url statusCode title).activePage.isSome
        = true
      ↔ (recording = true ∧ bypass url = false ∧ 0 < statusCode))
    ∧ (¬(recording = true ∧ bypass url = false ∧ 0 < statusCode) →
        (handleNavigation recording bypass t url statusCode title).activePage
          = none
        ∧ ∀ evs : List TabEv,
            (evs.foldl applyTabEv
              (handleNavigation recording bypass t url statusCode title)).archOps
              = (handleNavigation recording bypass t url statusCode title).archOps
            ∧ (evs.foldl applyTabEv
                (handleNavigation recording bypass t url statusCode title)).activePage
              = none) := by
  have hcond : (recording && !bypass url && decide (statusCode > 0)) = true
      ↔ (recording = true ∧ bypass url = false ∧ 0 < statusCode) := by
    simp [Bool.and_eq_true, Bool.not_eq_true', and_assoc]
  constructor
  · unfold handleNavigation
    split
    · rename_i hc
      constructor
      · intro _
        exact hcond.mp hc
      · intro _
        rfl
    · rename_i hc
      constructor
      · intro hs
        simp at hs
      · intro hr
        exact absurd (hcond.mpr hr) hc
  · intro hn
    have hc : ¬(recording && !bypass url && decide (statusCode > 0)) = true :=
      fun hc => hn (hcond.mp hc)
    have hnone :
        (handleNavigation recording bypass t url statusCode title).activePage
          = none := by
      unfold handleNavigation
      rw [if_neg hc]
    exact ⟨hnone, fun evs => foldl_applyTabEv_inactive evs _ hnone⟩

/-- Witness for C10 at a concrete non-qualifying navigation: recording is
off, so no binding exists and a subsequent title change persists nothing. -/
theorem Tab.active_binding_iff_witness :
    ((handleNavigation false (fun _ => false)
        { activePage := none, archOps := [] } "u" 1 "t").activePage.isSome
        = true
      ↔ (false = true ∧ false = false ∧ (0 : Int) < 1))
    ∧ (([TabEv.titleUpdated true "x"].foldl applyTabEv
        (handleNavigation false (fun _ => false)
          { activePage := none, archOps := [] } "u" 1 "t")).archOps
      = (handleNavigation false (fun _ => false)
          { activePage := none, archOps := [] } "u" 1 "t").archOps) :=
  ⟨(active_binding_iff false (fun _ => false)
      { activePage := none, archOps := [] } "u" 1 "t").1,
   (((active_binding_iff false (fun _ => false)
      { activePage := none, archOps := [] } "u" 1 "t").2
        (by simp)).2 [TabEv.titleUpdated true "x"]).1⟩
